import Mathlib

/-!
truenas-alters-ntfy: a shallow embedding of `main.go`.

The program fetches the alert list of a TrueNAS appliance, removes alerts with
an in-place loop, turns every remaining alert into an ntfy payload and posts it.

Modelling conventions.

* A Go `string` is a Lean `String`; the string functions work on its character
  list.  All patterns searched for by the program (`":"`, `"<ul><li>"`,
  `"</li></ul>"`, `"<br>"`) are ASCII, and an ASCII byte never occurs inside a
  multi-byte UTF-8 sequence, so searching characters and searching bytes agree
  on the valid UTF-8 text that `encoding/json` produces.
* `int64`, `int` are `Int`, `uint8` is `Nat`; the program does no arithmetic on
  them, only comparisons and constant assignments.
* The outside world (HTTP exchanges, JSON decoding, the local-time formatter)
  is an explicit input.
* An `error` result is `Option GoError`, `none` being `nil`.
-/

namespace TruenasNtfy

/-! ## Go standard library: `strings.Index`, `Count`, `Split`, `Replace` -/

/-- `strings.Index(s, substr)`: the index of the first instance of `substr` in
`s`; `none` stands for Go's `-1`. -/
def Index : List Char → List Char → Option Nat
  | [], substr => if substr.isPrefixOf [] then some 0 else none
  | c :: s, substr =>
    if substr.isPrefixOf (c :: s) then some 0 else (Index s substr).map (· + 1)

/-- The loop of `strings.Count` for a non-empty `substr`:
`for { i := Index(s, substr); if i == -1 { return n }; n++; s = s[i+len(substr):] }`.
The first argument bounds the number of iterations. -/
def countLoop : Nat → List Char → List Char → Nat
  | 0, _, _ => 0
  | fuel + 1, s, substr =>
    match Index s substr with
    | none => 0
    | some i => 1 + countLoop fuel (s.drop (i + substr.length)) substr

/-- `strings.Count(s, substr)`: the number of non-overlapping instances of
`substr` in `s`; for the empty `substr` it is the number of characters plus
one.  (For a one-byte `substr` Go counts the occurrences of that byte, which is
the same number.)  Every iteration of the loop removes at least one character,
so `s.length` iterations are enough (`countLoop_fuel`). -/
def Count (s substr : List Char) : Nat :=
  if substr = [] then s.length + 1 else countLoop s.length s substr

/-- The loop of `strings.genSplit`:
`for i < n { m := Index(s, sep); if m < 0 { break }; a[i] = s[:m]; s = s[m+len(sep):]; i++ }; a[i] = s`. -/
def splitLoop : Nat → List Char → List Char → List (List Char)
  | 0, s, _ => [s]
  | n + 1, s, sep =>
    match Index s sep with
    | none => [s]
    | some m => s.take m :: splitLoop n (s.drop (m + sep.length)) sep

/-- `strings.Split(s, sep)`, that is `genSplit(s, sep, 0, -1)`. -/
def Split (s sep : List Char) : List (List Char) :=
  if sep = [] then s.map (fun c => [c])
  else splitLoop (min (Count s sep + 1) (s.length + 1) - 1) s sep

/-- The loop of `strings.Replace` for a non-empty `old`:
`j := start + Index(s[start:], old); b.WriteString(s[start:j]); b.WriteString(new); start = j + len(old)`,
run `n` times, followed by `b.WriteString(s[start:])`.  The list argument is
`s[start:]`. -/
def replaceLoop : Nat → List Char → List Char → List Char → List Char
  | 0, s, _, _ => s
  | n + 1, s, old, new =>
    match Index s old with
    | none => s
    | some j => s.take j ++ new ++ replaceLoop n (s.drop (j + old.length)) old new

/-- `strings.Replace(s, old, new, -1)`. -/
def replaceChars (s old new : List Char) : List Char :=
  if old = new then s
  else if Count s old = 0 then s
  else if old = [] then new ++ s.flatMap (fun c => c :: new)
  else replaceLoop (Count s old) s old new

/-- `strings.Replace(s, old, new, -1)` on strings. -/
def Replace (s old new : String) : String :=
  ⟨replaceChars s.data old.data new.data⟩

/-! ## Data model -/

/-- The anonymous struct of the `args` field. -/
structure AlertArgs where
  Volume : String
  State : String
  Status : String
  Devices : String
  deriving DecidableEq, Repr

/-- The anonymous structs of `datetime` and `last_occurrence`. -/
structure DateField where
  Date : Int
  deriving DecidableEq, Repr

/-- `type TruenasAlerts struct`.  `Mail` is an `interface{}` the program never
looks at; it is kept as the raw JSON text of the field, `none` for `null`. -/
structure TruenasAlerts where
  Uuid : String
  Source : String
  Klass : String
  Args : AlertArgs
  Node : String
  Key : String
  Datetime : DateField
  LastOccurrence : DateField
  Dismissed : Bool
  Mail : Option String
  Text : String
  Id : String
  Level : String
  Formatted : String
  OneShot : Bool
  deriving DecidableEq, Repr

/-- `type NtfyActions struct`. -/
structure NtfyActions where
  Action : String
  Label : String
  Url : String
  deriving DecidableEq, Repr

/-- `type NtfyMessage struct`. -/
structure NtfyMessage where
  Topic : String
  Message : String
  Title : String
  Tags : List String
  Priority : Nat
  Attach : String
  Filename : String
  Click : String
  Actions : List NtfyActions
  deriving DecidableEq, Repr

/-- The package-level variables. -/
structure Globals where
  truenasUrl : String
  apikey : String
  ntfyUrl : String
  ntfyTopic : String
  interval : Int
  deriving DecidableEq, Repr

/-- The places where an `error` value is produced. -/
inductive GoError where
  | newRequest
  | transport
  | readBody
  | unmarshal
  deriving DecidableEq, Repr

/-- One HTTP exchange as seen by the caller of `http.NewRequest`, `client.Do`
and `io.ReadAll`: the request cannot be built, the transport fails, or a
response arrives with a status code and a body that is read (`some`) or whose
reading fails (`none`). -/
inductive HttpExchange where
  | badRequest
  | transportError
  | response (status : Int) (body : Option String)
  deriving DecidableEq, Repr

/-! ## getAlerts -/

/-- The removal loop of `getAlerts` (lines 121-125), started at index `i`:
`for ; i < len(nasAlerts); i++ { if nasAlerts[i].Datetime.Date >= interval {
nasAlerts = append(nasAlerts[:i], nasAlerts[i+1:]...) } }`.
The first argument bounds the number of iterations. -/
def filterLoop (interval : Int) : Nat → List TruenasAlerts → Nat → List TruenasAlerts
  | 0, nasAlerts, _ => nasAlerts
  | fuel + 1, nasAlerts, i =>
    if h : i < nasAlerts.length then
      if nasAlerts[i].Datetime.Date ≥ interval then
        filterLoop interval fuel (nasAlerts.take i ++ nasAlerts.drop (i + 1)) (i + 1)
      else
        filterLoop interval fuel nasAlerts (i + 1)
    else nasAlerts

/-- Lines 121-125 of `getAlerts`.  The index grows by one in every iteration
and the slice never grows, so `len(nasAlerts)` iterations are enough
(`filterLoop_fuel`). -/
def filterAlerts (interval : Int) (nasAlerts : List TruenasAlerts) : List TruenasAlerts :=
  filterLoop interval nasAlerts.length nasAlerts 0

/-- `getAlerts`.  `unmarshal body` is the effect of
`json.Unmarshal(body, &nasAlerts)`: the slice it leaves in `nasAlerts` and the
error it returns.  The result is the pair `(nasAlerts, err)`. -/
def getAlerts (g : Globals) (unmarshal : String → List TruenasAlerts × Option GoError)
    (x : HttpExchange) : List TruenasAlerts × Option GoError :=
  match x with
  | .badRequest => ([], some .newRequest)
  | .transportError => ([], some .transport)
  | .response _ none => ([], some .readBody)
  | .response _ (some body) =>
    match unmarshal body with
    | (nasAlerts, some err) => (nasAlerts, some err)
    | (nasAlerts, none) => (filterAlerts g.interval nasAlerts, none)

/-! ## CreateNtfyMessage -/

/-- The last argument of the `fmt.Sprintf` call (line 138). -/
def renderFormatted (formatted : String) : String :=
  Replace (Replace (Replace formatted "<ul><li>" "\n") "</li></ul>" "") "<br>" "\n"

/-- The `switch alerts.Level` of lines 140-158: the values of `level` and
`priority` after it. -/
def levelSwitch (Level : String) : String × Nat :=
  if Level = "INFO" then ("large_blue_circle", 1)
  else if Level = "NOTICE" then ("purple_circle", 2)
  else if Level = "WARNING" then ("yellow_circle", 3)
  else if Level = "ERROR" ∨ Level = "ALERT" then ("orange_circle", 4)
  else if Level = "CRITICAL" ∨ Level = "EMERGENCY" then ("red_circle", 5)
  else ("", 0)

/-- The expression `strings.Split(alerts.Formatted, ":")[0]` (line 139);
`none` is the index-out-of-range panic. -/
def titleOf (formatted : String) : Option String :=
  ((Split formatted.data ":".data)[0]?).map String.mk

/-- `CreateNtfyMessage`.  `fmtTime ms` is
`time.UnixMilli(ms).Format("2006/01/02 15:04:05")`, which depends on the local
time zone.  `none` is a run-time panic. -/
def CreateNtfyMessage (fmtTime : Int → String) (g : Globals) (alerts : TruenasAlerts) :
    Option NtfyMessage :=
  let alertTime := fmtTime alerts.Datetime.Date
  let lastOccTime := fmtTime alerts.LastOccurrence.Date
  let message := "\nLevel:" ++ alerts.Level ++ "\nTime: " ++ alertTime ++
    "\nLast Occurence: " ++ lastOccTime ++ "\nDissmissed: " ++
    (if alerts.Dismissed then "true" else "false") ++ "\nMessage: " ++
    renderFormatted alerts.Formatted
  match titleOf alerts.Formatted with
  | none => none
  | some title =>
    let level := (levelSwitch alerts.Level).1
    let priority := (levelSwitch alerts.Level).2
    some {
      Topic := g.ntfyTopic
      Title := title
      Message := message
      Priority := priority
      Tags := [level, "TrueNas"]
      Attach := ""
      Filename := ""
      Click := g.truenasUrl
      Actions := [{ Action := "View", Label := "Admin Panel", Url := g.truenasUrl }] }

/-! ## sendNtfy -/

/-- `sendNtfy`, as a function of the payload and of the HTTP exchange its POST
meets.  `unmarshal body` is the error returned by
`json.Unmarshal(body, &ntfyResponse)`.  `json.Marshal` of an `NtfyMessage`
(strings, a `uint8` and slices of them) has no failing case, so the payload
does not influence the returned error. -/
def sendNtfy (unmarshal : String → Option GoError) (_content : NtfyMessage)
    (x : HttpExchange) : Option GoError :=
  match x with
  | .badRequest => some .newRequest
  | .transportError => some .transport
  | .response status body =>
    let err : Option GoError := match body with
      | none => some .readBody
      | some _ => none
    if err ≠ none ∨ status ≠ 200 then err
    else
      match body with
      | none => err
      | some b => unmarshal b

/-! ## main -/

/-- What a run does that is visible from outside. -/
inductive Event where
  | logError (msg : String) (err : GoError)
  | logInfo (msg : String)
  | callSendNtfy (content : NtfyMessage)
  | panic
  deriving DecidableEq, Repr

/-- The statement `if err != nil { slog.Error(msg, err) }`. -/
def logIfError (msg : String) (err : Option GoError) : List Event :=
  match err with
  | some e => [Event.logError msg e]
  | none => []

/-- The `for _, alert := range alerts` loop of `main` (lines 233-239).  `k` is
the number of `sendNtfy` calls made so far and `posts k` the HTTP exchange the
call number `k` meets. -/
def mainLoop (fmtTime : Int → String) (g : Globals) (unmarshal : String → Option GoError)
    (posts : Nat → HttpExchange) : Nat → List TruenasAlerts → List Event
  | _, [] => []
  | k, alert :: rest =>
    match CreateNtfyMessage fmtTime g alert with
    | none => [Event.panic]
    | some message =>
      Event.callSendNtfy message ::
        (logIfError "Unable to send to ntfy at the moment" (sendNtfy unmarshal message (posts k)) ++
         mainLoop fmtTime g unmarshal posts (k + 1) rest)

/-- Lines 229-239 of `main`: everything after `alerts, err := getAlerts()`,
as a function of that result. -/
def mainAfterFetch (fmtTime : Int → String) (g : Globals)
    (unmarshal : String → Option GoError) (posts : Nat → HttpExchange)
    (fetched : List TruenasAlerts × Option GoError) : List Event :=
  logIfError "unable to fetch alerts from TrueNas" fetched.2 ++
  Event.logInfo ("Found " ++ toString fetched.1.length ++ " alerts!") ::
  mainLoop fmtTime g unmarshal posts 0 fetched.1

/-- Lines 228-239 of `main`, the globals being set. -/
def main (fmtTime : Int → String) (g : Globals)
    (unmarshalAlerts : String → List TruenasAlerts × Option GoError)
    (unmarshalNtfy : String → Option GoError)
    (fetch : HttpExchange) (posts : Nat → HttpExchange) : List Event :=
  mainAfterFetch fmtTime g unmarshalNtfy posts (getAlerts g unmarshalAlerts fetch)

/-- The payloads of the `sendNtfy` calls of a run, in order. -/
def sentPayloads : List Event → List NtfyMessage
  | [] => []
  | Event.callSendNtfy m :: t => m :: sentPayloads t
  | _ :: t => sentPayloads t

/-! ## Specification-side definitions -/

/-- The pass described for the removal loop: going left to right over the
original list, an element is dropped iff its `Datetime.Date` is `>=` the cutoff
and the element immediately before it was not dropped.  `prevDropped` tells
whether the predecessor was dropped; the result is the list of "dropped"
flags. -/
def dropMask (cutoff : Int) : Bool → List TruenasAlerts → List Bool
  | _, [] => []
  | prevDropped, a :: rest =>
    let dropped := decide (a.Datetime.Date ≥ cutoff) && !prevDropped
    dropped :: dropMask cutoff dropped rest

/-- The elements of a list whose "dropped" flag is not set. -/
def keepUndropped : List TruenasAlerts → List Bool → List TruenasAlerts
  | a :: rest, d :: ds => if d then keepUndropped rest ds else a :: keepUndropped rest ds
  | _, _ => []

/-- A piece of markup text: one of the three tokens `CreateNtfyMessage`
rewrites, or a single other character. -/
inductive Piece where
  | listOpen
  | listClose
  | lineBreak
  | other (c : Char)
  deriving DecidableEq, Repr

/-- The text of a piece. -/
def Piece.text : Piece → List Char
  | .listOpen => "<ul><li>".data
  | .listClose => "</li></ul>".data
  | .lineBreak => "<br>".data
  | .other c => [c]

/-- A single character counts as a piece only when it is not `<`. -/
def Piece.plain : Piece → Bool
  | .other c => c != '<'
  | _ => true

/-- The text of a sequence of pieces. -/
def piecesText : List Piece → List Char
  | [] => []
  | p :: ps => p.text ++ piecesText ps

/-- Well-formed markup: the text is a sequence of whole tokens and of
characters other than `<`, so every `<` starts or lies inside a whole token. -/
def WellFormedMarkup (formatted : String) : Prop :=
  ∃ ps : List Piece, (∀ p ∈ ps, p.plain = true) ∧ formatted.data = piecesText ps

/-- Replace the piece `tk` by the pieces `sub`. -/
def substPiece (tk : Piece) (sub : List Piece) (p : Piece) : List Piece :=
  if p = tk then sub else [p]

/-- An alert with the given creation time, level and formatted text, all other
fields empty. -/
def sampleAlert (date : Int) (level formatted : String) : TruenasAlerts :=
  { Uuid := "", Source := "", Klass := "", Args := ⟨"", "", "", ""⟩, Node := "", Key := "",
    Datetime := ⟨date⟩, LastOccurrence := ⟨date⟩, Dismissed := false, Mail := none,
    Text := "", Id := "", Level := level, Formatted := formatted, OneShot := false }

/-- The configuration used in the examples. -/
def sampleGlobals : Globals :=
  { truenasUrl := "https://nas.local", apikey := "key", ntfyUrl := "https://ntfy.local",
    ntfyTopic := "alerts", interval := 5 }

/-! ## The removal loop -/

theorem filterLoop_of_length_le (C : Int) (fuel : Nat) (a : List TruenasAlerts) (i : Nat)
    (h : a.length ≤ i) : filterLoop C fuel a i = a := by
  cases fuel with
  | zero => rfl
  | succ n =>
    have h' : ¬ i < a.length := by omega
    simp [filterLoop, h']

theorem filterLoop_append (C : Int) :
    ∀ (fuel : Nat) (pre rest : List TruenasAlerts), rest.length ≤ fuel →
      filterLoop C fuel (pre ++ rest) pre.length
        = pre ++ keepUndropped rest (dropMask C false rest) := by
  intro fuel
  induction fuel with
  | zero =>
    intro pre rest h
    have : rest = [] := List.length_eq_zero.mp (by omega)
    subst this
    simp [filterLoop, keepUndropped]
  | succ n ih =>
    intro pre rest h
    cases rest with
    | nil => simp [filterLoop, keepUndropped]
    | cons x xs =>
      have hlt : pre.length < (pre ++ x :: xs).length := by simp
      have hget : (pre ++ x :: xs)[pre.length] = x := by
        rw [List.getElem_append_right (Nat.le_refl _)]
        simp
      have htake : (pre ++ x :: xs).take pre.length = pre := by simp
      have hdrop : (pre ++ x :: xs).drop (pre.length + 1) = xs := by simp
      rw [filterLoop, dif_pos hlt, hget, htake, hdrop]
      by_cases hx : x.Datetime.Date ≥ C
      · rw [if_pos hx]
        cases xs with
        | nil =>
          rw [filterLoop_of_length_le C n (pre ++ []) (pre.length + 1) (by simp)]
          simp [dropMask, keepUndropped, hx]
        | cons y ys =>
          have e : pre ++ y :: ys = (pre ++ [y]) ++ ys := by simp
          have e2 : pre.length + 1 = (pre ++ [y]).length := by simp
          rw [e, e2, ih (pre ++ [y]) ys (by simp at h; omega)]
          simp [dropMask, keepUndropped, hx]
      · rw [if_neg hx]
        have e : pre ++ x :: xs = (pre ++ [x]) ++ xs := by simp
        have e2 : pre.length + 1 = (pre ++ [x]).length := by simp
        rw [e, e2, ih (pre ++ [x]) xs (by simp at h; omega)]
        simp [dropMask, keepUndropped, hx]

theorem filterLoop_fuel (C : Int) (fuel : Nat) (l : List TruenasAlerts) (h : l.length ≤ fuel) :
    filterLoop C fuel l 0 = keepUndropped l (dropMask C false l) := by
  simpa using filterLoop_append C fuel [] l h

theorem filterAlerts_eq (C : Int) (l : List TruenasAlerts) :
    filterAlerts C l = keepUndropped l (dropMask C false l) :=
  filterLoop_fuel C l.length l (Nat.le_refl _)

theorem keepUndropped_sublist (C : Int) :
    ∀ (l : List TruenasAlerts) (p : Bool), (keepUndropped l (dropMask C p l)).Sublist l := by
  intro l
  induction l with
  | nil => intro p; simp [dropMask, keepUndropped]
  | cons a rest ih =>
    intro p
    simp only [dropMask, keepUndropped]
    split
    · exact (ih _).cons a
    · exact (ih _).cons₂ a

theorem filter_sublist_keepUndropped (C : Int) :
    ∀ (l : List TruenasAlerts) (p : Bool),
      (l.filter (fun a => decide (a.Datetime.Date < C))).Sublist
        (keepUndropped l (dropMask C p l)) := by
  intro l
  induction l with
  | nil => intro p; simp [dropMask, keepUndropped]
  | cons a rest ih =>
    intro p
    by_cases ha : a.Datetime.Date < C
    · have hn : ¬ a.Datetime.Date ≥ C := by omega
      simp only [dropMask, keepUndropped, List.filter_cons, ha, hn, decide_True, decide_False,
        Bool.false_and, if_true]
      exact (ih _).cons₂ a
    · have hge : a.Datetime.Date ≥ C := by omega
      cases p
      · simp only [dropMask, keepUndropped, List.filter_cons, ha, hge, decide_True, decide_False,
          Bool.not_false, Bool.and_self, if_true]
        exact ih _
      · simp only [dropMask, keepUndropped, List.filter_cons, ha, hge, decide_True, decide_False,
          Bool.not_true, Bool.and_false]
        exact (ih _).cons a

theorem dropMask_chain (C : Int) :
    ∀ (l : List TruenasAlerts) (p : Bool),
      List.Chain (fun d e : Bool => ¬ (d = true ∧ e = true)) p (dropMask C p l) := by
  intro l
  induction l with
  | nil => intro p; simp [dropMask]
  | cons a rest ih =>
    intro p
    simp only [dropMask]
    refine List.Chain.cons ?_ (ih _)
    cases p <;> simp

theorem dropMask_chain' (C : Int) (l : List TruenasAlerts) (p : Bool) :
    List.Chain' (fun d e : Bool => ¬ (d = true ∧ e = true)) (dropMask C p l) := by
  cases l with
  | nil => simp [dropMask]
  | cons a rest =>
    simp only [dropMask]
    exact dropMask_chain C rest _

theorem keepUndropped_length (C : Int) :
    ∀ (l : List TruenasAlerts) (p : Bool),
      (l.length + (if p then 1 else 0)) / 2 ≤ (keepUndropped l (dropMask C p l)).length := by
  intro l
  induction l with
  | nil => intro p; cases p <;> simp [dropMask, keepUndropped]
  | cons a rest ih =>
    intro p
    have h1 := ih true
    have h2 := ih false
    by_cases hge : a.Datetime.Date ≥ C <;> cases p <;>
      simp [dropMask, keepUndropped, hge] at h1 h2 ⊢ <;> omega

theorem keepUndropped_eq_filter (C : Int) :
    ∀ (l : List TruenasAlerts) (p : Bool),
      List.Chain' (fun a b : TruenasAlerts => ¬ (a.Datetime.Date ≥ C ∧ b.Datetime.Date ≥ C)) l →
      (p = true → ∀ a ∈ l.head?, a.Datetime.Date < C) →
      keepUndropped l (dropMask C p l) = l.filter (fun a => decide (a.Datetime.Date < C)) := by
  intro l
  induction l with
  | nil => intro p _ _; simp [dropMask, keepUndropped]
  | cons a rest ih =>
    intro p hc hp
    simp only [dropMask, keepUndropped]
    by_cases ha : a.Datetime.Date < C
    · have hn : ¬ a.Datetime.Date ≥ C := by omega
      simp only [List.filter_cons, ha, hn, decide_True, decide_False, Bool.false_and, if_true]
      rw [ih false (List.Chain'.tail hc) (by simp)]
      simp
    · have hge : a.Datetime.Date ≥ C := by omega
      have hpf : p = false := by
        cases p
        · rfl
        · exact absurd (hp rfl a (by simp)) ha
      subst hpf
      simp only [List.filter_cons, ha, hge, decide_True, decide_False, Bool.not_false,
        Bool.and_self, if_true]
      rw [ih true (List.Chain'.tail hc)]
      · simp
      · intro _ b hb
        cases rest with
        | nil => simp at hb
        | cons b' rest' =>
          simp at hb
          subst hb
          have := (List.chain'_cons.mp hc).1
          simp only [not_and] at this
          have := this hge
          omega

/-! ## The string functions -/

/-! ### Index -/

theorem Index_nil (substr : List Char) (h : substr ≠ []) : Index [] substr = none := by
  cases substr with
  | nil => exact absurd rfl h
  | cons a t => simp [Index, List.isPrefixOf]

theorem Index_lt_length (substr : List Char) (h : substr ≠ []) :
    ∀ (s : List Char) (i : Nat), Index s substr = some i → i < s.length := by
  intro s
  induction s with
  | nil => intro i hi; rw [Index_nil substr h] at hi; cases hi
  | cons c s ih =>
    intro i hi
    rw [Index] at hi
    split at hi
    · cases hi; simp
    · cases hj : Index s substr with
      | none => rw [hj] at hi; cases hi
      | some j =>
        rw [hj] at hi
        cases hi
        have := ih j hj
        simp
        omega

/-! ### Count -/

theorem countLoop_fuel (substr : List Char) (h : substr ≠ []) :
    ∀ (f1 f2 : Nat) (s : List Char), s.length ≤ f1 → s.length ≤ f2 →
      countLoop f1 s substr = countLoop f2 s substr := by
  have hlen : 0 < substr.length := List.length_pos.mpr h
  intro f1
  induction f1 with
  | zero =>
    intro f2 s h1 _
    have : s = [] := List.length_eq_zero.mp (by omega)
    subst this
    cases f2 <;> simp [countLoop, Index_nil substr h]
  | succ n ih =>
    intro f2 s h1 h2
    cases f2 with
    | zero =>
      have : s = [] := List.length_eq_zero.mp (by omega)
      subst this
      simp [countLoop, Index_nil substr h]
    | succ m =>
      simp only [countLoop]
      cases hi : Index s substr with
      | none => rfl
      | some i =>
        have hlt := Index_lt_length substr h s i hi
        simp only
        rw [ih m (s.drop (i + substr.length)) (by simp; omega) (by simp; omega)]

theorem Count_unfold (s substr : List Char) (h : substr ≠ []) :
    Count s substr =
      match Index s substr with
      | none => 0
      | some i => 1 + Count (s.drop (i + substr.length)) substr := by
  have hlen : 0 < substr.length := List.length_pos.mpr h
  simp only [Count, if_neg h]
  cases hs : s.length with
  | zero =>
    have : s = [] := List.length_eq_zero.mp hs
    subst this
    simp [countLoop, Index_nil substr h]
  | succ k =>
    simp only [countLoop]
    cases hi : Index s substr with
    | none => rfl
    | some i =>
      simp only
      rw [countLoop_fuel substr h k (s.drop (i + substr.length)).length _
        (by simp; omega) (Nat.le_refl _)]

/-! ### Replace -/

theorem replaceChars_unfold (s old new : List Char) (h : old ≠ []) (hne : old ≠ new) :
    replaceChars s old new =
      match Index s old with
      | none => s
      | some j => s.take j ++ new ++ replaceChars (s.drop (j + old.length)) old new := by
  have key : ∀ t, replaceChars t old new = replaceLoop (Count t old) t old new := by
    intro t
    simp only [replaceChars, if_neg hne, if_neg h]
    split
    · rename_i h0; rw [h0]; rfl
    · rfl
  rw [key s, Count_unfold s old h]
  cases hi : Index s old with
  | none => simp [replaceLoop]
  | some j =>
    simp only
    rw [Nat.add_comm, replaceLoop, hi, key]

theorem replaceChars_nil (old new : List Char) (h : old ≠ []) (hne : old ≠ new) :
    replaceChars [] old new = [] := by
  rw [replaceChars_unfold _ _ _ h hne, Index_nil old h]

theorem replaceChars_cons (c : Char) (s old new : List Char) (h : old ≠ []) (hne : old ≠ new)
    (hp : old.isPrefixOf (c :: s) = false) :
    replaceChars (c :: s) old new = c :: replaceChars s old new := by
  rw [replaceChars_unfold (c :: s) _ _ h hne, replaceChars_unfold s _ _ h hne]
  simp only [Index, hp]
  cases Index s old with
  | none => simp
  | some j => simp [Nat.add_right_comm]

theorem replaceChars_old_append (s old new : List Char) (h : old ≠ []) (hne : old ≠ new) :
    replaceChars (old ++ s) old new = new ++ replaceChars s old new := by
  rw [replaceChars_unfold (old ++ s) _ _ h hne]
  have hp : old.isPrefixOf (old ++ s) = true := by
    rw [List.isPrefixOf_iff_prefix]; exact List.prefix_append _ _
  have hi : Index (old ++ s) old = some 0 := by
    cases hos : old ++ s with
    | nil => simp [List.append_eq_nil] at hos; exact absurd hos.1 h
    | cons a t => rw [hos] at hp; simp [Index, hp]
  rw [hi]
  simp


/-! ### Occurrences -/

theorem Index_eq_none_iff (substr : List Char) :
    ∀ s : List Char, Index s substr = none ↔ ¬ substr <:+: s := by
  intro s
  induction s with
  | nil =>
    cases substr with
    | nil => simp [Index, List.isPrefixOf]
    | cons a t => simp [Index, List.isPrefixOf]
  | cons c s ih =>
    rw [Index, List.infix_cons_iff, not_or, ← ih, ← List.isPrefixOf_iff_prefix]
    by_cases hp : substr.isPrefixOf (c :: s) = true
    · simp [hp]
    · simp [hp]

theorem isPrefixOf_append_cons (c : Char) :
    ∀ (old u T : List Char), c ∉ old → old.isPrefixOf (u ++ c :: T) = true →
      old.isPrefixOf u = true := by
  intro old
  induction old with
  | nil => intro u T _ _; simp [List.isPrefixOf]
  | cons o os ih =>
    intro u T hc hp
    have hoc : o ≠ c := fun e => hc (by simp [e])
    have hcs : c ∉ os := fun e => hc (by simp [e])
    cases u with
    | nil => simp [List.isPrefixOf, hoc] at hp
    | cons y u' =>
      simp only [List.cons_append, List.isPrefixOf, Bool.and_eq_true] at hp ⊢
      exact ⟨hp.1, ih u' T hcs hp.2⟩

theorem isPrefixOf_take_of_not (old : List Char) (s : List Char) (j : Nat)
    (h : old.isPrefixOf s = false) : old.isPrefixOf (s.take j) = false := by
  cases hp : old.isPrefixOf (s.take j) with
  | false => rfl
  | true =>
    rw [List.isPrefixOf_iff_prefix] at hp
    have : old <+: s := hp.trans (List.take_prefix j s)
    rw [← List.isPrefixOf_iff_prefix, h] at this
    cases this

theorem Index_take_append (old : List Char) (c : Char) (hc : c ∉ old) (T : List Char)
    (hT : Index T old = none) :
    ∀ (s : List Char) (j : Nat), Index s old = some j →
      Index (s.take j ++ c :: T) old = none := by
  have hold : old ≠ [] := by
    rintro rfl
    cases T <;> simp [Index, List.isPrefixOf] at hT
  have hcT : old.isPrefixOf (c :: T) = false := by
    cases old with
    | nil => exact absurd rfl hold
    | cons o os =>
      have hoc : o ≠ c := fun e => hc (by simp [e])
      simp [List.isPrefixOf, hoc]
  intro s
  induction s with
  | nil => intro j hj; rw [Index_nil old hold] at hj; cases hj
  | cons x s ih =>
    intro j hj
    rw [Index] at hj
    split at hj
    · cases hj
      simp [Index, hcT, hT]
    · rename_i hnp
      cases hi : Index s old with
      | none => rw [hi] at hj; cases hj
      | some i =>
        rw [hi] at hj
        cases hj
        have hnp' : old.isPrefixOf (x :: s) = false := Bool.eq_false_iff.mpr hnp
        have h1 : old.isPrefixOf (x :: (s.take i ++ c :: T)) = false := by
          cases hp : old.isPrefixOf (x :: (s.take i ++ c :: T)) with
          | false => rfl
          | true =>
            have := isPrefixOf_append_cons c old (x :: s.take i) T hc (by simpa using hp)
            have h2 := isPrefixOf_take_of_not old (x :: s) (i + 1) hnp'
            simp only [List.take_succ_cons] at h2
            rw [h2] at this
            cases this
        rw [List.take_succ_cons, List.cons_append, Index, h1, ih i hi]
        simp

theorem Index_replaceChars_none (old : List Char) (c : Char) (hc : c ∉ old) (h : old ≠ []) :
    ∀ (n : Nat) (s : List Char), s.length ≤ n → Index (replaceChars s old [c]) old = none := by
  have hne : old ≠ [c] := by
    rintro rfl
    simp at hc
  intro n
  induction n with
  | zero =>
    intro s hs
    have : s = [] := List.length_eq_zero.mp (by omega)
    subst this
    rw [replaceChars_nil old _ h hne, Index_nil old h]
  | succ n ih =>
    intro s hs
    rw [replaceChars_unfold s old _ h hne]
    cases hi : Index s old with
    | none => simpa using hi
    | some j =>
      have hlt := Index_lt_length old h s j hi
      have hlen : 0 < old.length := List.length_pos.mpr h
      have := ih (s.drop (j + old.length)) (by simp; omega)
      simp only [List.append_assoc, List.singleton_append]
      exact Index_take_append old c hc _ this s j hi

/-! ### Split -/

theorem Index_singleton (c : Char) :
    ∀ s : List Char,
      (c ∉ s → Index s [c] = none) ∧
      (c ∈ s → ∃ m, Index s [c] = some m ∧ s.take m = s.takeWhile (fun x => x != c)) := by
  intro s
  induction s with
  | nil => simp [Index, List.isPrefixOf]
  | cons x s ih =>
    by_cases hx : c = x
    · subst hx
      simp [Index, List.isPrefixOf, List.takeWhile]
    · have hx' : x ≠ c := fun e => hx e.symm
      constructor
      · intro hn
        have : c ∉ s := fun e => hn (by simp [e])
        simp [Index, List.isPrefixOf, hx, ih.1 this]
      · intro hm
        have : c ∈ s := by
          rcases List.mem_cons.mp hm with e | e
          · exact absurd e hx
          · exact e
        obtain ⟨m, hm1, hm2⟩ := ih.2 this
        refine ⟨m + 1, ?_, ?_⟩
        · simp [Index, List.isPrefixOf, hx, hm1]
        · have hb : (x != c) = true := by simp [hx']
          rw [List.take_succ_cons, hm2, List.takeWhile_cons, hb]
          rfl

theorem Split_head (c : Char) (s : List Char) :
    (Split s [c])[0]? = some (s.takeWhile (fun x => x != c)) := by
  have hsep : [c] ≠ [] := by simp
  simp only [Split, if_neg hsep]
  by_cases hc : c ∈ s
  · obtain ⟨m, hm1, hm2⟩ := (Index_singleton c s).2 hc
    have hcount : Count s [c] = 1 + Count (s.drop (m + [c].length)) [c] := by
      rw [Count_unfold s [c] hsep, hm1]
    have hlen : 0 < s.length := List.length_pos.mpr (List.ne_nil_of_mem hc)
    obtain ⟨k, hk⟩ : ∃ k, min (Count s [c] + 1) (s.length + 1) - 1 = k + 1 :=
      ⟨min (Count s [c] + 1) (s.length + 1) - 2, by omega⟩
    rw [hk, splitLoop, hm1]
    simp [hm2]
  · have hi := (Index_singleton c s).1 hc
    have hw : s.takeWhile (fun x => x != c) = s := by
      rw [List.takeWhile_eq_self_iff]
      intro x hx
      have : x ≠ c := fun e => hc (e ▸ hx)
      simp [this]
    rw [hw]
    cases min (Count s [c] + 1) (s.length + 1) - 1 with
    | zero => simp [splitLoop]
    | succ k => simp [splitLoop, hi]

theorem titleOf_eq (formatted : String) :
    titleOf formatted = some ⟨formatted.data.takeWhile (fun x => x != ':')⟩ := by
  have : ":".data = [':'] := rfl
  simp [titleOf, this, Split_head]


theorem piecesText_append (ps qs : List Piece) :
    piecesText (ps ++ qs) = piecesText ps ++ piecesText qs := by
  induction ps with
  | nil => rfl
  | cons p ps ih => simp [piecesText, ih]

/-- Replacing a markup token in well-formed markup replaces exactly the pieces
that are this token. -/
theorem replaceChars_pieces (tk : Piece) (htk : ∀ c, tk ≠ Piece.other c) (new : List Char)
    (sub : List Piece) (hsub : piecesText sub = new) (hne : tk.text ≠ new) :
    ∀ ps : List Piece, (∀ p ∈ ps, p.plain = true) →
      replaceChars (piecesText ps) tk.text new = piecesText (ps.flatMap (substPiece tk sub)) := by
  have hnil : tk.text ≠ [] := by
    cases tk <;> simp [Piece.text]
  intro ps
  induction ps with
  | nil => intro _; exact replaceChars_nil _ _ hnil hne
  | cons p ps ih =>
    intro hp
    have ih' := ih (fun q hq => hp q (List.mem_cons_of_mem _ hq))
    have hpp := hp p (List.mem_cons_self _ _)
    by_cases hptk : p = tk
    · subst hptk
      rw [piecesText, replaceChars_old_append _ _ _ hnil hne, ih']
      simp [substPiece, piecesText_append, hsub]
    · have hsp : substPiece tk sub p = [p] := by simp [substPiece, hptk]
      rw [List.flatMap_cons, hsp, List.singleton_append, piecesText, piecesText, ← ih']
      cases p with
      | other c =>
        have hc : c ≠ '<' := by simpa [Piece.plain] using hpp
        cases tk with
        | other d => exact absurd rfl (htk d)
        | listOpen =>
          simp only [Piece.text] at hne ⊢
          simp [replaceChars_cons, List.isPrefixOf, hne, Ne.symm hc]
        | listClose =>
          simp only [Piece.text] at hne ⊢
          simp [replaceChars_cons, List.isPrefixOf, hne, Ne.symm hc]
        | lineBreak =>
          simp only [Piece.text] at hne ⊢
          simp [replaceChars_cons, List.isPrefixOf, hne, Ne.symm hc]
      | listOpen =>
        cases tk with
        | other d => exact absurd rfl (htk d)
        | listOpen => exact absurd rfl hptk
        | listClose =>
          simp only [Piece.text] at hne ⊢
          simp [replaceChars_cons, List.isPrefixOf, hne]
        | lineBreak =>
          simp only [Piece.text] at hne ⊢
          simp [replaceChars_cons, List.isPrefixOf, hne]
      | listClose =>
        cases tk with
        | other d => exact absurd rfl (htk d)
        | listClose => exact absurd rfl hptk
        | listOpen =>
          simp only [Piece.text] at hne ⊢
          simp [replaceChars_cons, List.isPrefixOf, hne]
        | lineBreak =>
          simp only [Piece.text] at hne ⊢
          simp [replaceChars_cons, List.isPrefixOf, hne]
      | lineBreak =>
        cases tk with
        | other d => exact absurd rfl (htk d)
        | lineBreak => exact absurd rfl hptk
        | listOpen =>
          simp only [Piece.text] at hne ⊢
          simp [replaceChars_cons, List.isPrefixOf, hne]
        | listClose =>
          simp only [Piece.text] at hne ⊢
          simp [replaceChars_cons, List.isPrefixOf, hne]

theorem dropMask_getD (C : Int) :
    ∀ (l : List TruenasAlerts) (p : Bool) (i : Nat) (h : i < l.length),
      (dropMask C p l).getD i false
        = (decide (l[i].Datetime.Date ≥ C) &&
            !(if i = 0 then p else (dropMask C p l).getD (i - 1) false)) := by
  intro l
  induction l with
  | nil => intro p i h; simp at h
  | cons a rest ih =>
    intro p i h
    cases i with
    | zero => simp [dropMask]
    | succ j =>
      have hj : j < rest.length := by simpa using h
      have := ih (decide (a.Datetime.Date ≥ C) && !p) j hj
      simp only [dropMask, List.getD_cons_succ, List.getElem_cons_succ, Nat.add_sub_cancel,
        Nat.succ_ne_zero, if_false] at this ⊢
      rw [this]
      cases j with
      | zero => simp [dropMask]
      | succ k => simp

/-! ## The claims about the removal loop -/

/-- C1, as stated, fails: with cutoff 5, the list holding the single alert
created at 5 is emptied by the loop, although its creation timestamp is `<= 5`. -/
theorem filterAlerts_le_cutoff_counterexample :
    ¬ (∀ (C : Int) (l : List TruenasAlerts),
        filterAlerts C l = l.filter (fun a => decide (a.Datetime.Date ≤ C))) := by
  intro h
  have := h 5 [sampleAlert 5 "INFO" "x"]
  revert this
  decide

/-- C1, amended: on every list in which no two consecutive alerts both have a
creation timestamp `>=` the cutoff, the loop returns exactly the alerts whose
creation timestamp is strictly below the cutoff, in their original order. -/
theorem filterAlerts_eq_filter_lt (C : Int) (l : List TruenasAlerts)
    (h : List.Chain' (fun a b : TruenasAlerts =>
      ¬ (a.Datetime.Date ≥ C ∧ b.Datetime.Date ≥ C)) l) :
    filterAlerts C l = l.filter (fun a => decide (a.Datetime.Date < C)) := by
  rw [filterAlerts_eq]
  exact keepUndropped_eq_filter C l false h (by simp)

/-- The amended C1 at cutoff 5 on the creation times 3, 7, 4, 5. -/
theorem filterAlerts_eq_filter_lt_witness :
    List.Chain' (fun a b : TruenasAlerts => ¬ (a.Datetime.Date ≥ 5 ∧ b.Datetime.Date ≥ 5))
        [sampleAlert 3 "INFO" "a", sampleAlert 7 "INFO" "b", sampleAlert 4 "INFO" "c",
          sampleAlert 5 "INFO" "d"] ∧
      filterAlerts 5 [sampleAlert 3 "INFO" "a", sampleAlert 7 "INFO" "b",
          sampleAlert 4 "INFO" "c", sampleAlert 5 "INFO" "d"]
        = [sampleAlert 3 "INFO" "a", sampleAlert 7 "INFO" "b", sampleAlert 4 "INFO" "c",
            sampleAlert 5 "INFO" "d"].filter (fun a => decide (a.Datetime.Date < 5)) :=
  ⟨by simp [sampleAlert], filterAlerts_eq_filter_lt 5 _ (by simp [sampleAlert])⟩

/-- C10: the removal loop, with any number of iterations allowed that is at
least the length of the list, returns what the single left-to-right pass
returns in which an element is dropped iff its creation timestamp is `>=` the
cutoff and its predecessor was not dropped.  The result is a sublist of the
input, retains every alert created strictly before the cutoff, never drops two
adjacent elements, and has at least half (rounded down) of the elements. -/
theorem filterLoop_refines_dropMask (C : Int) (l : List TruenasAlerts) :
    (∀ fuel, l.length ≤ fuel →
        filterLoop C fuel l 0 = keepUndropped l (dropMask C false l)) ∧
      filterAlerts C l = keepUndropped l (dropMask C false l) ∧
      (∀ (i : Nat) (h : i < l.length),
        ((dropMask C false l).getD i false = true ↔
          (l[i].Datetime.Date ≥ C ∧
            (i = 0 ∨ (dropMask C false l).getD (i - 1) false = false)))) ∧
      (filterAlerts C l).Sublist l ∧
      (l.filter (fun a => decide (a.Datetime.Date < C))).Sublist (filterAlerts C l) ∧
      (∀ a ∈ l, a.Datetime.Date < C → a ∈ filterAlerts C l) ∧
      List.Chain' (fun d e : Bool => ¬ (d = true ∧ e = true)) (dropMask C false l) ∧
      l.length / 2 ≤ (filterAlerts C l).length := by
  have hsub := filter_sublist_keepUndropped C l false
  refine ⟨fun fuel h => filterLoop_fuel C fuel l h, filterAlerts_eq C l, ?_, ?_, ?_, ?_,
    dropMask_chain' C l false, ?_⟩
  · intro i h
    rw [dropMask_getD C l false i h]
    by_cases hi : i = 0
    · simp [hi]
    · simp [hi]
  · rw [filterAlerts_eq]; exact keepUndropped_sublist C l false
  · rw [filterAlerts_eq]; exact hsub
  · intro a ha hlt
    rw [filterAlerts_eq]
    exact hsub.subset (List.mem_filter.mpr ⟨ha, by simpa using hlt⟩)
  · rw [filterAlerts_eq]
    simpa using keepUndropped_length C l false

/-- C10 at cutoff 5 on the creation times 1, 5, 6, 7, 2: the loop keeps 1, 6, 2,
and the alert created at 1 is retained. -/
theorem filterLoop_refines_dropMask_witness :
    filterLoop 5 7 [sampleAlert 1 "INFO" "a", sampleAlert 5 "INFO" "b",
        sampleAlert 6 "INFO" "c", sampleAlert 7 "INFO" "d", sampleAlert 2 "INFO" "e"] 0
      = [sampleAlert 1 "INFO" "a", sampleAlert 6 "INFO" "c", sampleAlert 2 "INFO" "e"] ∧
    sampleAlert 1 "INFO" "a" ∈ filterAlerts 5 [sampleAlert 1 "INFO" "a",
        sampleAlert 5 "INFO" "b", sampleAlert 6 "INFO" "c", sampleAlert 7 "INFO" "d",
        sampleAlert 2 "INFO" "e"] :=
  ⟨((filterLoop_refines_dropMask 5 [sampleAlert 1 "INFO" "a", sampleAlert 5 "INFO" "b",
        sampleAlert 6 "INFO" "c", sampleAlert 7 "INFO" "d", sampleAlert 2 "INFO" "e"]).1 7
      (by decide)).trans (by decide),
    (filterLoop_refines_dropMask 5 [sampleAlert 1 "INFO" "a", sampleAlert 5 "INFO" "b",
        sampleAlert 6 "INFO" "c", sampleAlert 7 "INFO" "d", sampleAlert 2 "INFO" "e"]).2.2.2.2.2.1
      (sampleAlert 1 "INFO" "a") (by simp) (by decide)⟩

/-! ## The claims about CreateNtfyMessage -/

theorem takeWhile_ne_spec (c : Char) :
    ∀ s : List Char,
      c ∉ s.takeWhile (fun x => x != c) ∧
      (s.takeWhile (fun x => x != c) = s ∨
        ∃ rest, s = s.takeWhile (fun x => x != c) ++ c :: rest) := by
  intro s
  induction s with
  | nil => simp
  | cons x s ih =>
    by_cases hx : x = c
    · subst hx
      simp [List.takeWhile]
    · have hb : (x != c) = true := by simp [hx]
      rw [List.takeWhile_cons, hb]
      refine ⟨?_, ?_⟩
      · simp only [if_true, List.mem_cons, not_or]
        exact ⟨fun e => hx e.symm, ih.1⟩
      · rcases ih.2 with h | ⟨rest, h⟩
        · left; simp [h]
        · right; exact ⟨rest, by simp only [if_true, List.cons_append]; rw [← h]⟩

/-- `CreateNtfyMessage` never panics, and its result is the following payload. -/
theorem CreateNtfyMessage_eq (fmtTime : Int → String) (g : Globals) (a : TruenasAlerts) :
    CreateNtfyMessage fmtTime g a = some {
      Topic := g.ntfyTopic
      Title := ⟨a.Formatted.data.takeWhile (fun x => x != ':')⟩
      Message := "\nLevel:" ++ a.Level ++ "\nTime: " ++ fmtTime a.Datetime.Date ++
        "\nLast Occurence: " ++ fmtTime a.LastOccurrence.Date ++ "\nDissmissed: " ++
        (if a.Dismissed then "true" else "false") ++ "\nMessage: " ++
        renderFormatted a.Formatted
      Priority := (levelSwitch a.Level).2
      Tags := [(levelSwitch a.Level).1, "TrueNas"]
      Attach := ""
      Filename := ""
      Click := g.truenasUrl
      Actions := [{ Action := "View", Label := "Admin Panel", Url := g.truenasUrl }] } := by
  simp [CreateNtfyMessage, titleOf_eq]

/-- C2: the first tag and the priority of the payload follow the case-sensitive
table on `Level`; every other `Level` gives the empty tag and priority 0, so
the priority lies in 1..5 exactly for the seven listed tokens. -/
theorem CreateNtfyMessage_level_table (fmtTime : Int → String) (g : Globals)
    (a : TruenasAlerts) :
    ∃ m, CreateNtfyMessage fmtTime g a = some m ∧
      (a.Level = "INFO" → m.Tags[0]? = some "large_blue_circle" ∧ m.Priority = 1) ∧
      (a.Level = "NOTICE" → m.Tags[0]? = some "purple_circle" ∧ m.Priority = 2) ∧
      (a.Level = "WARNING" → m.Tags[0]? = some "yellow_circle" ∧ m.Priority = 3) ∧
      (a.Level = "ERROR" ∨ a.Level = "ALERT" →
        m.Tags[0]? = some "orange_circle" ∧ m.Priority = 4) ∧
      (a.Level = "CRITICAL" ∨ a.Level = "EMERGENCY" →
        m.Tags[0]? = some "red_circle" ∧ m.Priority = 5) ∧
      (a.Level ∉ ["INFO", "NOTICE", "WARNING", "ERROR", "ALERT", "CRITICAL", "EMERGENCY"] →
        m.Tags[0]? = some "" ∧ m.Priority = 0) ∧
      ((1 ≤ m.Priority ∧ m.Priority ≤ 5) ↔
        a.Level ∈ ["INFO", "NOTICE", "WARNING", "ERROR", "ALERT", "CRITICAL", "EMERGENCY"]) := by
  refine ⟨_, CreateNtfyMessage_eq fmtTime g a, ?_, ?_, ?_, ?_, ?_, ?_, ?_⟩
  · intro h; simp [levelSwitch, h]
  · intro h; simp [levelSwitch, h]
  · intro h; simp [levelSwitch, h]
  · rintro (h | h) <;> simp [levelSwitch, h]
  · rintro (h | h) <;> simp [levelSwitch, h]
  · intro h
    simp only [List.mem_cons, List.mem_singleton, List.not_mem_nil, or_false, not_or] at h
    simp [levelSwitch, h]
  · simp only [levelSwitch, List.mem_cons, List.mem_singleton, List.not_mem_nil, or_false]
    split_ifs with h1 h2 h3 h4 h5
    · simp [h1]
    · simp [h2]
    · simp [h3]
    · rcases h4 with h | h <;> simp [h]
    · rcases h5 with h | h <;> simp [h]
    · simp only [not_or] at h4 h5
      simp [h1, h2, h3, h4, h5]

/-- C2 on the levels `ALERT` and `info`. -/
theorem CreateNtfyMessage_level_table_witness :
    (∃ m, CreateNtfyMessage (fun _ => "t") sampleGlobals (sampleAlert 1 "ALERT" "x") = some m ∧
      m.Tags[0]? = some "orange_circle" ∧ m.Priority = 4) ∧
    (∃ m, CreateNtfyMessage (fun _ => "t") sampleGlobals (sampleAlert 1 "info" "x") = some m ∧
      m.Tags[0]? = some "" ∧ m.Priority = 0) := by
  constructor
  · obtain ⟨m, hm, _, _, _, h4, _⟩ :=
      CreateNtfyMessage_level_table (fun _ => "t") sampleGlobals (sampleAlert 1 "ALERT" "x")
    exact ⟨m, hm, h4 (Or.inr rfl)⟩
  · obtain ⟨m, hm, _, _, _, _, _, h6, _⟩ :=
      CreateNtfyMessage_level_table (fun _ => "t") sampleGlobals (sampleAlert 1 "info" "x")
    exact ⟨m, hm, h6 (by decide)⟩

/-- C4: indexing the split result never fails, the title contains no `:`, and
it is either the whole formatted text or the part of it followed by the first
`:`; `"Pool Degraded: details here"` gives `"Pool Degraded"`. -/
theorem CreateNtfyMessage_title (fmtTime : Int → String) (g : Globals) (a : TruenasAlerts) :
    (∃ t, titleOf a.Formatted = some t) ∧
    (∃ m, CreateNtfyMessage fmtTime g a = some m ∧
      titleOf a.Formatted = some m.Title ∧
      ':' ∉ m.Title.data ∧
      (m.Title = a.Formatted ∨ ∃ rest, a.Formatted.data = m.Title.data ++ ':' :: rest)) ∧
    (∃ m, CreateNtfyMessage fmtTime g
        { a with Formatted := "Pool Degraded: details here" } = some m ∧
      m.Title = "Pool Degraded") := by
  have ht : (⟨"Pool Degraded: details here".data.takeWhile (fun x => x != ':')⟩ : String)
      = "Pool Degraded" := by decide
  refine ⟨⟨_, titleOf_eq _⟩, ⟨_, CreateNtfyMessage_eq fmtTime g a, titleOf_eq _, ?_, ?_⟩,
    ⟨_, CreateNtfyMessage_eq fmtTime g _, ht⟩⟩
  · exact (takeWhile_ne_spec ':' a.Formatted.data).1
  · rcases (takeWhile_ne_spec ':' a.Formatted.data).2 with h | ⟨rest, h⟩
    · left
      show String.mk _ = a.Formatted
      rw [h]
    · right
      exact ⟨rest, h⟩

/-- C9: topic, tags, click target and the single action of the payload; they
are the same for two alerts with the same `Level`. -/
theorem CreateNtfyMessage_fixed_fields (fmtTime : Int → String) (g : Globals)
    (a : TruenasAlerts) :
    ∃ m, CreateNtfyMessage fmtTime g a = some m ∧
      m.Topic = g.ntfyTopic ∧
      m.Tags = [(levelSwitch a.Level).1, "TrueNas"] ∧
      m.Click = g.truenasUrl ∧
      m.Actions = [{ Action := "View", Label := "Admin Panel", Url := g.truenasUrl }] ∧
      ∀ b : TruenasAlerts, b.Level = a.Level →
        ∃ n, CreateNtfyMessage fmtTime g b = some n ∧
          n.Topic = m.Topic ∧ n.Tags = m.Tags ∧ n.Click = m.Click ∧ n.Actions = m.Actions := by
  refine ⟨_, CreateNtfyMessage_eq fmtTime g a, rfl, rfl, rfl, rfl, ?_⟩
  intro b hb
  exact ⟨_, CreateNtfyMessage_eq fmtTime g b, rfl, by simp [hb], rfl, rfl⟩

/-- C9 on two `WARNING` alerts that differ in every other respect. -/
theorem CreateNtfyMessage_fixed_fields_witness :
    ∃ m n, CreateNtfyMessage (fun _ => "t") sampleGlobals (sampleAlert 1 "WARNING" "x: y") = some m ∧
      CreateNtfyMessage (fun _ => "t") sampleGlobals (sampleAlert 9 "WARNING" "z") = some n ∧
      m.Tags = ["yellow_circle", "TrueNas"] ∧
      n.Topic = m.Topic ∧ n.Tags = m.Tags ∧ n.Click = m.Click ∧ n.Actions = m.Actions := by
  obtain ⟨m, hm, _, ht, _, _, hall⟩ :=
    CreateNtfyMessage_fixed_fields (fun _ => "t") sampleGlobals (sampleAlert 1 "WARNING" "x: y")
  obtain ⟨n, hn, h⟩ := hall (sampleAlert 9 "WARNING" "z") rfl
  exact ⟨m, n, hm, hn, ht.trans (by decide), h⟩

theorem renderFormatted_data (formatted : String) :
    (renderFormatted formatted).data =
      replaceChars (replaceChars (replaceChars formatted.data "<ul><li>".data "\n".data)
        "</li></ul>".data "".data) "<br>".data "\n".data := rfl

theorem renderFormatted_no_lineBreak (formatted : String) :
    ¬ "<br>".data <:+: (renderFormatted formatted).data := by
  rw [renderFormatted_data, ← Index_eq_none_iff]
  exact Index_replaceChars_none "<br>".data '\n' (by decide) (by decide) _ _ (Nat.le_refl _)

theorem mem_flatMap_substPiece (tk : Piece) (sub : List Piece) (ps : List Piece) (q : Piece) :
    q ∈ ps.flatMap (substPiece tk sub) ↔ (tk ∈ ps ∧ q ∈ sub) ∨ (q ∈ ps ∧ q ≠ tk) := by
  simp only [List.mem_flatMap, substPiece]
  constructor
  · rintro ⟨p, hp, hq⟩
    by_cases h : p = tk
    · rw [if_pos h] at hq
      exact Or.inl ⟨h ▸ hp, hq⟩
    · rw [if_neg h] at hq
      have : q = p := by simpa using hq
      exact Or.inr ⟨this ▸ hp, this ▸ h⟩
  · rintro (⟨h1, h2⟩ | ⟨h1, h2⟩)
    · exact ⟨tk, h1, by simpa using h2⟩
    · exact ⟨q, h1, by simp [h2]⟩

/-- Well-formed markup is rendered into text without any `<`. -/
theorem renderFormatted_wellFormed (formatted : String) (h : WellFormedMarkup formatted) :
    '<' ∉ (renderFormatted formatted).data := by
  obtain ⟨ps, hplain, hdata⟩ := h
  have nl : piecesText [Piece.other '\n'] = "\n".data := rfl
  have em : piecesText [] = "".data := rfl
  have h1 := replaceChars_pieces Piece.listOpen (by intro c; simp) "\n".data
    [Piece.other '\n'] nl (by decide) ps hplain
  have p1 : ∀ q ∈ ps.flatMap (substPiece Piece.listOpen [Piece.other '\n']),
      q.plain = true ∧ q ≠ Piece.listOpen := by
    intro q hq
    rcases (mem_flatMap_substPiece _ _ _ _).mp hq with ⟨_, hq⟩ | ⟨hq, hne⟩
    · simp at hq; subst hq; exact ⟨by decide, by simp⟩
    · exact ⟨hplain q hq, hne⟩
  have h2 := replaceChars_pieces Piece.listClose (by intro c; simp) "".data [] em (by decide)
    _ (fun q hq => (p1 q hq).1)
  have p2 : ∀ q ∈ (ps.flatMap (substPiece Piece.listOpen [Piece.other '\n'])).flatMap
      (substPiece Piece.listClose []),
      q.plain = true ∧ q ≠ Piece.listOpen ∧ q ≠ Piece.listClose := by
    intro q hq
    rcases (mem_flatMap_substPiece _ _ _ _).mp hq with ⟨_, hq⟩ | ⟨hq, hne⟩
    · simp at hq
    · exact ⟨(p1 q hq).1, (p1 q hq).2, hne⟩
  have h3 := replaceChars_pieces Piece.lineBreak (by intro c; simp) "\n".data
    [Piece.other '\n'] nl (by decide) _ (fun q hq => (p2 q hq).1)
  have p3 : ∀ q ∈ ((ps.flatMap (substPiece Piece.listOpen [Piece.other '\n'])).flatMap
      (substPiece Piece.listClose [])).flatMap (substPiece Piece.lineBreak [Piece.other '\n']),
      ∃ c, q = Piece.other c ∧ c ≠ '<' := by
    intro q hq
    rcases (mem_flatMap_substPiece _ _ _ _).mp hq with ⟨_, hq⟩ | ⟨hq, hne⟩
    · simp at hq; exact ⟨'\n', hq, by decide⟩
    · obtain ⟨hpl, ho, hc⟩ := p2 q hq
      cases q with
      | other c => exact ⟨c, rfl, by simpa [Piece.plain] using hpl⟩
      | listOpen => exact absurd rfl ho
      | listClose => exact absurd rfl hc
      | lineBreak => exact absurd rfl hne
  have hno : ∀ qs : List Piece, (∀ q ∈ qs, ∃ c, q = Piece.other c ∧ c ≠ '<') →
      '<' ∉ piecesText qs := by
    intro qs
    induction qs with
    | nil => intro _; simp [piecesText]
    | cons q qs ih =>
      intro hq
      obtain ⟨c, rfl, hc⟩ := hq q (List.mem_cons_self _ _)
      have := ih (fun r hr => hq r (List.mem_cons_of_mem _ hr))
      simp only [piecesText, Piece.text, List.singleton_append, List.mem_cons, not_or]
      exact ⟨fun e => hc e.symm, this⟩
  rw [renderFormatted_data, hdata]
  have e1 : Piece.listOpen.text = "<ul><li>".data := rfl
  have e2 : Piece.listClose.text = "</li></ul>".data := rfl
  have e3 : Piece.lineBreak.text = "<br>".data := rfl
  rw [e1] at h1
  rw [e2] at h2
  rw [e3] at h3
  rw [h1, h2, h3]
  exact hno _ p3

/-- C5, as stated, fails: in `<ul><l</li></ul>i>` the first step finds no
`<ul><li>`, the deletion of `</li></ul>` then joins `<ul><l` and `i>`, and the
rendered text is `<ul><li>`. -/
theorem renderFormatted_markup_counterexample :
    ¬ (∀ formatted : String,
        ¬ "<ul><li>".data <:+: (renderFormatted formatted).data ∧
        ¬ "</li></ul>".data <:+: (renderFormatted formatted).data ∧
        ¬ "<br>".data <:+: (renderFormatted formatted).data) := by
  intro h
  have h1 := (h "<ul><l</li></ul>i>").1
  have e : renderFormatted "<ul><l</li></ul>i>" = "<ul><li>" := by decide
  rw [e] at h1
  exact h1 List.infix_rfl

/-- C5, amended: the rendered text never contains `<br>`; when the formatted
text is well-formed markup (whole tokens and characters other than `<`), the
rendered text contains no `<` at all, hence none of the three tokens. -/
theorem renderFormatted_markup (formatted : String) :
    ¬ "<br>".data <:+: (renderFormatted formatted).data ∧
    (WellFormedMarkup formatted →
      '<' ∉ (renderFormatted formatted).data ∧
      ¬ "<ul><li>".data <:+: (renderFormatted formatted).data ∧
      ¬ "</li></ul>".data <:+: (renderFormatted formatted).data ∧
      ¬ "<br>".data <:+: (renderFormatted formatted).data) := by
  refine ⟨renderFormatted_no_lineBreak formatted, fun h => ?_⟩
  have hlt := renderFormatted_wellFormed formatted h
  refine ⟨hlt, ?_, ?_, ?_⟩
  · intro hi; exact hlt (hi.subset (by decide))
  · intro hi; exact hlt (hi.subset (by decide))
  · intro hi; exact hlt (hi.subset (by decide))

/-- The amended C5 on `Pool:<ul><li>a</li></ul><br>b`, rendered as
`Pool:`, newline, `a`, newline, `b`. -/
theorem renderFormatted_markup_witness :
    WellFormedMarkup "Pool:<ul><li>a</li></ul><br>b" ∧
    renderFormatted "Pool:<ul><li>a</li></ul><br>b" = "Pool:\na\nb" ∧
    ¬ "<ul><li>".data <:+: (renderFormatted "Pool:<ul><li>a</li></ul><br>b").data := by
  have hw : WellFormedMarkup "Pool:<ul><li>a</li></ul><br>b" :=
    ⟨[Piece.other 'P', Piece.other 'o', Piece.other 'o', Piece.other 'l', Piece.other ':',
      Piece.listOpen, Piece.other 'a', Piece.listClose, Piece.lineBreak, Piece.other 'b'],
      by decide, by decide⟩
  exact ⟨hw, by decide, ((renderFormatted_markup "Pool:<ul><li>a</li></ul><br>b").2 hw).2.1⟩

/-! ## The claims about sendNtfy and getAlerts -/

/-- When `sendNtfy` returns `nil`: a response arrived, its body was read, and
either the status is not 200 or the body decodes. -/
theorem sendNtfy_eq_none_iff (unmarshal : String → Option GoError) (content : NtfyMessage)
    (x : HttpExchange) :
    sendNtfy unmarshal content x = none ↔
      ∃ status body, x = .response status (some body) ∧
        (status ≠ 200 ∨ unmarshal body = none) := by
  cases x with
  | badRequest => simp [sendNtfy]
  | transportError => simp [sendNtfy]
  | response status body =>
    cases body with
    | none => simp [sendNtfy]
    | some b =>
      by_cases hs : status = 200
      · subst hs
        simp only [sendNtfy, ne_eq, not_true_eq_false, or_self, if_false]
        constructor
        · intro h; exact ⟨200, b, rfl, Or.inr h⟩
        · rintro ⟨st, b', he, h⟩
          cases he
          rcases h with h | h
          · exact absurd rfl h
          · exact h
      · simp only [sendNtfy, ne_eq, not_true_eq_false, hs, not_false_eq_true, or_true, if_true,
          true_iff]
        exact ⟨status, b, rfl, Or.inl hs⟩

/-- C3, the failing input: a response with status 500 whose body is read
without error makes `sendNtfy` return `nil`, whatever the decoder does, because
`return err` returns the `nil` error of `io.ReadAll`. -/
theorem sendNtfy_status_500_returns_nil (unmarshal : String → Option GoError)
    (content : NtfyMessage) :
    sendNtfy unmarshal content (.response 500 (some "internal server error")) = none := by
  simp [sendNtfy]

/-- C8, as stated, fails: a response with status 500 whose body decodes as an
(empty) sequence of alerts makes `getAlerts` return a `nil` error. -/
theorem getAlerts_status_counterexample :
    ¬ (∀ (g : Globals) (unmarshal : String → List TruenasAlerts × Option GoError)
        (x : HttpExchange),
        (x = .transportError ∨
          (∃ status body, x = .response status body ∧ ¬ (200 ≤ status ∧ status ≤ 299)) ∨
          (∃ status body, x = .response status (some body) ∧ (unmarshal body).2 ≠ none)) →
        (getAlerts g unmarshal x).2 ≠ none) := by
  intro h
  have := h sampleGlobals (fun _ => ([], none)) (.response 500 (some "[]"))
    (Or.inr (Or.inl ⟨500, some "[]", rfl, by decide⟩))
  exact this rfl

/-- C8, amended: `getAlerts` returns a non-nil error exactly when the request
cannot be built, the transport fails, the body cannot be read or the body does
not decode as a sequence of alerts; the status code is not looked at. -/
theorem getAlerts_error_iff (g : Globals)
    (unmarshal : String → List TruenasAlerts × Option GoError) (x : HttpExchange) :
    ((getAlerts g unmarshal x).2 ≠ none ↔
      (x = .badRequest ∨ x = .transportError ∨ (∃ status, x = .response status none) ∨
        ∃ status body, x = .response status (some body) ∧ (unmarshal body).2 ≠ none)) ∧
    (∀ status status' body,
      x = .response status body →
        getAlerts g unmarshal (.response status' body) = getAlerts g unmarshal x) := by
  constructor
  · cases x with
    | badRequest => simp [getAlerts]
    | transportError => simp [getAlerts]
    | response status body =>
      cases body with
      | none => simp [getAlerts]
      | some b =>
        simp only [getAlerts, false_or, HttpExchange.response.injEq, and_false, exists_false,
          Option.some.injEq, reduceCtorEq]
        rcases hu : unmarshal b with ⟨l, e⟩
        cases e with
        | none =>
          simp only [ne_eq, not_true_eq_false, false_iff, not_exists, not_and]
          rintro st b' ⟨_, rfl⟩
          simp [hu]
        | some err =>
          simp only [ne_eq, reduceCtorEq, not_false_eq_true, true_iff]
          exact ⟨status, b, ⟨rfl, rfl⟩, by simp [hu]⟩
  · rintro status status' body rfl
    cases body <;> rfl

/-- The amended C8 on a response with status 200 whose body does not decode, and
on the same body with status 404. -/
theorem getAlerts_error_iff_witness :
    (getAlerts sampleGlobals (fun _ => ([], some GoError.unmarshal))
        (.response 200 (some "oops"))).2 ≠ none ∧
    getAlerts sampleGlobals (fun _ => ([], some GoError.unmarshal)) (.response 404 (some "oops"))
      = getAlerts sampleGlobals (fun _ => ([], some GoError.unmarshal))
          (.response 200 (some "oops")) :=
  ⟨(getAlerts_error_iff sampleGlobals (fun _ => ([], some GoError.unmarshal))
      (.response 200 (some "oops"))).1.mpr
      (Or.inr (Or.inr (Or.inr ⟨200, "oops", rfl, by simp⟩))),
    (getAlerts_error_iff sampleGlobals (fun _ => ([], some GoError.unmarshal))
      (.response 200 (some "oops"))).2 200 404 (some "oops") rfl⟩

/-! ## The claims about main -/

theorem sentPayloads_append (t u : List Event) :
    sentPayloads (t ++ u) = sentPayloads t ++ sentPayloads u := by
  induction t with
  | nil => rfl
  | cons e t ih => cases e <;> simp [sentPayloads, ih]

theorem sentPayloads_logIfError (msg : String) (err : Option GoError) :
    sentPayloads (logIfError msg err) = [] := by
  cases err <;> rfl

theorem panic_not_mem_logIfError (msg : String) (err : Option GoError) :
    Event.panic ∉ logIfError msg err := by
  cases err <;> simp [logIfError]

theorem sentPayloads_mainLoop (fmtTime : Int → String) (g : Globals)
    (unmarshal : String → Option GoError) (posts : Nat → HttpExchange) :
    ∀ (alerts : List TruenasAlerts) (k : Nat),
      (sentPayloads (mainLoop fmtTime g unmarshal posts k alerts)).map some
        = alerts.map (CreateNtfyMessage fmtTime g) := by
  intro alerts
  induction alerts with
  | nil => intro k; rfl
  | cons a rest ih =>
    intro k
    rw [mainLoop, CreateNtfyMessage_eq]
    simp only [sentPayloads, sentPayloads_append, sentPayloads_logIfError, List.nil_append,
      List.map_cons]
    rw [ih (k + 1), CreateNtfyMessage_eq]

theorem panic_not_mem_mainLoop (fmtTime : Int → String) (g : Globals)
    (unmarshal : String → Option GoError) (posts : Nat → HttpExchange) :
    ∀ (alerts : List TruenasAlerts) (k : Nat),
      Event.panic ∉ mainLoop fmtTime g unmarshal posts k alerts := by
  intro alerts
  induction alerts with
  | nil => intro k; simp [mainLoop]
  | cons a rest ih =>
    intro k
    rw [mainLoop, CreateNtfyMessage_eq]
    simp only [List.mem_cons, List.mem_append, not_or]
    exact ⟨by simp, panic_not_mem_logIfError _ _, ih (k + 1)⟩

theorem sentPayloads_mainAfterFetch (fmtTime : Int → String) (g : Globals)
    (unmarshal : String → Option GoError) (posts : Nat → HttpExchange)
    (fetched : List TruenasAlerts × Option GoError) :
    (sentPayloads (mainAfterFetch fmtTime g unmarshal posts fetched)).map some
      = fetched.1.map (CreateNtfyMessage fmtTime g) := by
  rw [mainAfterFetch, sentPayloads_append, sentPayloads_logIfError]
  simp only [List.nil_append, sentPayloads]
  exact sentPayloads_mainLoop fmtTime g unmarshal posts fetched.1 0

/-- C6, as stated, fails: when the fetch result is a non-nil error together
with a slice of one alert, `main` logs the error and still makes one `sendNtfy`
call. -/
theorem main_fetch_error_counterexample :
    ¬ (∀ (fmtTime : Int → String) (g : Globals) (unmarshal : String → Option GoError)
        (posts : Nat → HttpExchange) (alerts : List TruenasAlerts) (err : GoError),
        sentPayloads (mainAfterFetch fmtTime g unmarshal posts (alerts, some err)) = []) := by
  intro h
  have := h (fun _ => "t") sampleGlobals (fun _ => none) (fun _ => .response 200 (some "ok"))
    [sampleAlert 1 "INFO" "x"] GoError.unmarshal
  revert this
  decide

/-- C6, amended: when `getAlerts` returns a non-nil error, `main` logs it and
then runs exactly as for the same slice without error: one `sendNtfy` call per
alert of the slice that comes with the error, hence none exactly when that
slice is empty, which is the case whenever no response body was read. -/
theorem main_fetch_error (fmtTime : Int → String) (g : Globals)
    (unmarshal : String → Option GoError) (posts : Nat → HttpExchange)
    (alerts : List TruenasAlerts) (err : GoError) :
    mainAfterFetch fmtTime g unmarshal posts (alerts, some err)
      = Event.logError "unable to fetch alerts from TrueNas" err ::
          mainAfterFetch fmtTime g unmarshal posts (alerts, none) ∧
    (sentPayloads (mainAfterFetch fmtTime g unmarshal posts (alerts, some err))).map some
      = alerts.map (CreateNtfyMessage fmtTime g) ∧
    (sentPayloads (mainAfterFetch fmtTime g unmarshal posts (alerts, some err))).length
      = alerts.length ∧
    (sentPayloads (mainAfterFetch fmtTime g unmarshal posts (alerts, some err)) = [] ↔
      alerts = []) ∧
    (∀ (unmarshalAlerts : String → List TruenasAlerts × Option GoError) (fetch : HttpExchange),
      (∀ status body, fetch ≠ .response status (some body)) →
        sentPayloads (main fmtTime g unmarshalAlerts unmarshal fetch posts) = []) := by
  have hmap := sentPayloads_mainAfterFetch fmtTime g unmarshal posts (alerts, some err)
  have hlen : (sentPayloads (mainAfterFetch fmtTime g unmarshal posts (alerts, some err))).length
      = alerts.length := by
    have := congrArg List.length hmap
    simpa using this
  refine ⟨rfl, hmap, hlen, ?_, ?_⟩
  · rw [← List.length_eq_zero, hlen, List.length_eq_zero]
  · intro unmarshalAlerts fetch hf
    have hnil : (getAlerts g unmarshalAlerts fetch).1 = [] := by
      cases fetch with
      | badRequest => rfl
      | transportError => rfl
      | response status body =>
        cases body with
        | none => rfl
        | some b => exact absurd rfl (hf status b)
    have := sentPayloads_mainAfterFetch fmtTime g unmarshal posts
      (getAlerts g unmarshalAlerts fetch)
    rw [hnil] at this
    simpa [main] using this

/-- The amended C6 on a transport failure of the fetch: no `sendNtfy` call. -/
theorem main_fetch_error_witness :
    (∀ status body, HttpExchange.transportError ≠ .response status (some body)) ∧
    sentPayloads (main (fun _ => "t") sampleGlobals
      (fun _ => ([sampleAlert 1 "INFO" "x"], none)) (fun _ => none)
      .transportError (fun _ => .response 200 (some "ok"))) = [] :=
  ⟨(by intro status body h; cases h),
    (main_fetch_error (fun _ => "t") sampleGlobals (fun _ => none)
      (fun _ => .response 200 (some "ok")) [] GoError.transport).2.2.2.2
      (fun _ => ([sampleAlert 1 "INFO" "x"], none)) .transportError
      (by intro status body h; cases h)⟩

/-- C7: whatever the fetch returned and whatever happens to the individual
posts, the loop of `main` never panics and calls `sendNtfy` exactly once per
alert, in order, with the payload `CreateNtfyMessage` builds for it; with three
alerts and a failing second post the first and third are still sent. -/
theorem main_dispatches_every_alert (fmtTime : Int → String) (g : Globals)
    (unmarshal : String → Option GoError) (posts : Nat → HttpExchange)
    (fetched : List TruenasAlerts × Option GoError) :
    (sentPayloads (mainAfterFetch fmtTime g unmarshal posts fetched)).map some
      = fetched.1.map (CreateNtfyMessage fmtTime g) ∧
    (sentPayloads (mainAfterFetch fmtTime g unmarshal posts fetched)).length
      = fetched.1.length ∧
    Event.panic ∉ mainAfterFetch fmtTime g unmarshal posts fetched ∧
    (∀ a b c : TruenasAlerts, ∃ ma mb mc,
      CreateNtfyMessage fmtTime g a = some ma ∧ CreateNtfyMessage fmtTime g b = some mb ∧
      CreateNtfyMessage fmtTime g c = some mc ∧
      mainAfterFetch fmtTime g unmarshal
        (fun k => if k = 1 then .transportError else .response 200 (some "ok"))
        ([a, b, c], none)
      = [Event.logInfo "Found 3 alerts!", Event.callSendNtfy ma] ++
          logIfError "Unable to send to ntfy at the moment" (unmarshal "ok") ++
        [Event.callSendNtfy mb,
          Event.logError "Unable to send to ntfy at the moment" GoError.transport,
          Event.callSendNtfy mc] ++
          logIfError "Unable to send to ntfy at the moment" (unmarshal "ok")) := by
  have hmap := sentPayloads_mainAfterFetch fmtTime g unmarshal posts fetched
  refine ⟨hmap, by simpa using congrArg List.length hmap, ?_, ?_⟩
  · have := panic_not_mem_mainLoop fmtTime g unmarshal posts fetched.1 0
    rw [mainAfterFetch]
    simp only [List.mem_cons, List.mem_append, not_or]
    exact ⟨panic_not_mem_logIfError _ _, by simp, this⟩
  · intro a b c
    refine ⟨_, _, _, CreateNtfyMessage_eq fmtTime g a, CreateNtfyMessage_eq fmtTime g b,
      CreateNtfyMessage_eq fmtTime g c, ?_⟩
    have h3 : ("Found " ++ toString ([a, b, c] : List TruenasAlerts).length ++ " alerts!")
        = "Found 3 alerts!" := by
      have : ("Found " ++ toString 3 ++ " alerts!") = "Found 3 alerts!" := by decide
      exact this
    simp only [mainAfterFetch, mainLoop, CreateNtfyMessage_eq, h3]
    simp [sendNtfy, logIfError]

end TruenasNtfy
